import Mathlib

/-!
Verification of the inventory-dashboard pipeline in `app.js`:
CSV parsing (`fetchAndParseCSV`), expiry classification
(`computeExpiryInfo`), and view aggregation (`renderAll`), together with
the top-level `init` and refresh-button control flows.

Strings are embedded as `List Char` (`Str`), so the JavaScript string
operations the code uses (`trim`, `split`, `parseInt`) are plain
structural recursions that the kernel can evaluate.  Dates are embedded
as ECMAScript day numbers (days since the epoch, local midnight); since
both `expiry` and `today` are set to local midnight, the millisecond
difference is an exact multiple of 86 400 000 in this model, which is
why the source's `Math.ceil` is modelled by an exact ceiling division.
-/

abbrev Str := List Char

/-- The whitespace test used to model JavaScript's `trim` /
`parseInt` leading-whitespace skipping (restricted to the ASCII
whitespace characters relevant here). -/
def isWS (c : Char) : Bool :=
  c = ' ' || c = '\t' || c = '\n' || c = '\r' || c = '\x0b' || c = '\x0c'

/-- JavaScript `String.prototype.trim`: drop whitespace from both ends. -/
def jsTrim (s : Str) : Str :=
  ((s.dropWhile isWS).reverse.dropWhile isWS).reverse

/-- JavaScript `String.prototype.split` with a single-character
separator: `"a--b".split('-') = ["a","","b"]`, `"".split('-') = [""]`. -/
def splitOnChar (sep : Char) : Str → List Str
  | [] => [[]]
  | c :: cs =>
    match splitOnChar sep cs with
    | [] => [[]]
    | t :: ts => if c = sep then [] :: t :: ts else (c :: t) :: ts

/-- Numeric value of a digit run (most significant first). -/
def digitsToNat (ds : Str) : Nat :=
  ds.foldl (fun a c => 10 * a + (c.toNat - 48)) 0

/-- Sign handling of `parseInt`: an optional leading `-` or `+`. -/
def stripSign : Str → Int × Str
  | [] => (1, [])
  | c :: r => if c = '-' then (-1, r) else if c = '+' then (1, r) else (1, c :: r)

/-- JavaScript `parseInt(s, 10)`: skip leading whitespace, read an
optional sign, then the longest prefix of decimal digits; `NaN`
(modelled as `none`) when that prefix is empty.  Trailing garbage such
as `"2024x"` is ignored. -/
def jsParseInt (s : Str) : Option Int :=
  let t := s.dropWhile isWS
  let sign := (stripSign t).1
  let t' := (stripSign t).2
  let ds := t'.takeWhile Char.isDigit
  if ds = [] then none else some (sign * (digitsToNat ds : Int))

/-- ECMAScript `DayFromYear(y)`: days from 1970-01-01 to `y`-01-01.
`Int` division is Euclidean, which agrees with ECMAScript's `floor`
for the positive divisors used here. -/
def dayFromYear (y : Int) : Int :=
  365 * (y - 1970) + (y - 1969) / 4 - (y - 1901) / 100 + (y - 1601) / 400

/-- Gregorian leap-year test, as in ECMAScript `DaysInYear`. -/
def isLeap (y : Int) : Bool :=
  (y % 4 = 0 && y % 100 ≠ 0) || y % 400 = 0

/-- Day of year (0-based) of the first day of month `mn` (0-based,
`0 ≤ mn ≤ 11`). -/
def monthOffsets (leap : Bool) : List Int :=
  if leap then [0, 31, 60, 91, 121, 152, 182, 213, 244, 274, 305, 335]
  else [0, 31, 59, 90, 120, 151, 181, 212, 243, 273, 304, 334]

/-- Day number of `new Date(y, m - 1, d)` (local midnight), following
ECMAScript `MakeDay`: the month index `m - 1` is normalised into the
year with floored division (so month 13 of year `y` is January of
`y + 1`), and the day `d` is added linearly (so day 40 rolls over into
the following month). -/
def daysFromCivil (y m d : Int) : Int :=
  let mIdx := m - 1
  let ym := y + mIdx / 12
  let mn := mIdx % 12
  dayFromYear ym + (monthOffsets (isLeap ym)).getD mn.toNat 0 + d - 1

/-- Exact model of `Math.ceil (a / b)` on an integer-valued quotient
context: ceiling division of integers, for `b > 0`. -/
def ceilDiv (a b : Int) : Int := -((-a) / b)

/-- The `status` strings produced by `computeExpiryInfo`. -/
inductive Status where
  | safe
  | soon
  | expired
  | noexpiry
deriving DecidableEq, Repr

/-- The `{daysLeft, status}` object returned by `computeExpiryInfo`. -/
structure ExpiryInfo where
  daysLeft : Option Int
  status : Status
deriving DecidableEq, Repr

/-- The threshold chain of `computeExpiryInfo` (lines 94-98 of
`app.js`): `diffDays <= 30 ⇒ expired`, else `<= 89 ⇒ soon`, else
`safe`.  (The source's `if (diffDays === null)` branch is dead code:
`diffDays` is a number on this path.) -/
def statusOfDays (diffDays : Int) : Status :=
  if diffDays ≤ 30 then .expired
  else if diffDays ≤ 89 then .soon
  else .safe

/-- Function `computeExpiryInfo(expiryStr)` from `app.js`, with the current date
made explicit as `today`, the day number of local midnight today.
`!expiryStr` on a string is "the string is empty".  The source pads
`diffMs = expiry - today` in milliseconds and takes
`Math.ceil(diffMs / 86400000)`; with both dates at midnight this is the
exact day difference, modelled by `ceilDiv`. -/
def computeExpiryInfo (today : Int) (expiryStr : Str) : ExpiryInfo :=
  if expiryStr = [] ∨ jsTrim expiryStr = ['-'] then ⟨none, .noexpiry⟩
  else
    let parts := (splitOnChar '-' expiryStr).map jsParseInt
    if parts.length ≠ 3 ∨ parts.any Option.isNone then ⟨none, .noexpiry⟩
    else
      match parts with
      | some a :: some b :: some c :: _ =>
        let diffMs := (daysFromCivil a b c - today) * 86400000
        let diffDays := ceilDiv diffMs 86400000
        ⟨some diffDays, statusOfDays diffDays⟩
      | _ => ⟨none, .noexpiry⟩

/-- The status the classifier is committed to for a given `daysLeft`:
`noexpiry` for `null`, the threshold chain otherwise. -/
def expectedStatus (dl : Option Int) : Status :=
  match dl with
  | none => .noexpiry
  | some d => statusOfDays d

/-- An `ExpiryInfo` is coherent when its `status` agrees with its
`daysLeft` the way `computeExpiryInfo` always arranges ("classified"
records in the spec's sense). -/
def Coherent (m : ExpiryInfo) : Prop :=
  m.status = expectedStatus m.daysLeft

instance (m : ExpiryInfo) : Decidable (Coherent m) :=
  inferInstanceAs (Decidable (m.status = expectedStatus m.daysLeft))

/- ------------------------------------------------------------------
   CSV parsing: `fetchAndParseCSV` (lines 52-72 of `app.js`).  The
   network fetch is modelled by handing the function the response
   text; the placeholder-URL guard is dead code in this repository
   (the configured `CSV_URL` does not contain `<YOUR_PUB_ID>`).
   ------------------------------------------------------------------ -/

/-- A parsed row: the JS object `obj` built by `headers.forEach`,
modelled as an association list in insertion order. -/
abbrev Rec := List (Str × Str)

/-- Drop one trailing carriage return.  Splitting on `'\n'` and then
stripping one trailing `'\r'` from each piece is exactly the source's
`split(/\r?\n/)` on trimmed text (the trimmed text cannot end in
`'\r'`, and a `'\r'` not followed by `'\n'` stays in its line). -/
def stripCR (l : Str) : Str :=
  if l.getLast? = some '\r' then l.dropLast else l

/-- Line 60 of `app.js`: `text.trim().split(/\r?\n/)`. -/
def splitLines (text : Str) : List Str :=
  (splitOnChar '\n' (jsTrim text)).map stripCR

/-- Lines 62 and 64 of `app.js`: split a line on commas and trim each
token (used both for the header line and for each data line). -/
def splitTrim (line : Str) : List Str :=
  (splitOnChar ',' line).map jsTrim

/-- The `headers.forEach((h,i) => obj[h] = cols[i] || '')` loop, with
the preceding `while (cols.length < headers.length) cols.push('')`
padding folded into `getD` (a missing or empty column yields `""`). -/
def parseLineAux (cols : List Str) : List Str → Nat → Rec
  | [], _ => []
  | h :: hs, i => (h, cols.getD i []) :: parseLineAux cols hs (i + 1)

/-- One data line of the CSV body (lines 63-69 of `app.js`). -/
def parseLine (headers : List Str) (line : Str) : Rec :=
  parseLineAux (splitTrim line) headers 0

/-- Function `fetchAndParseCSV` of `app.js`, applied to the fetched
response text: split into lines, return `[]` when there is at most a
header line, otherwise map every data line to a record keyed by the
trimmed header tokens. -/
def fetchAndParseCSV (text : Str) : List Rec :=
  let lines := splitLines text
  match lines with
  | [] => []
  | hd :: tl =>
    if tl = [] then []
    else tl.map (parseLine (splitTrim hd))

/- ------------------------------------------------------------------
   Items and rendering: `renderAll` (lines 105-164 of `app.js`).
   Only the data content of the view is modelled (the filtered+sorted
   sequence, the four summary counts, the urgent sequence, and whether
   the "no urgent items" message branch is taken); DOM node creation
   is presentation glue outside the pipeline.
   ------------------------------------------------------------------ -/

/-- An element of the global `items` array: the parsed record spread
together with its `_meta` classification. -/
structure Item where
  fields : Rec
  _meta : ExpiryInfo
deriving DecidableEq, Repr

/-- JavaScript property access `i[k]` on the record part (`undefined`
for a missing key is modelled as `none`). -/
def getField (i : Item) (k : Str) : Option Str :=
  i.fields.lookup k

/-- Property access with the `|| ''` default used by the sort
comparators. -/
def getFieldD (i : Item) (k : Str) : Str :=
  (getField i k).getD []

/-- The category column name `'類別'`. -/
def catKey : Str := "類別".data

/-- The expiry column name `'到期日(YYYY-MM-DD)'`. -/
def expiryKey : Str := "到期日(YYYY-MM-DD)".data

/-- The sort key of the expiry comparator (lines 119-121 of `app.js`):
`daysLeft === null ? 99999 : daysLeft`. -/
def daysKey (i : Item) : Int :=
  match i._meta.daysLeft with
  | none => 99999
  | some d => d

/-- Code-point lexicographic string order, modelling the ascending
order produced by the `localeCompare` comparator (locale-dependent
collation is out of scope; no claim depends on the category order). -/
def strLe : Str → Str → Bool
  | [], _ => true
  | _ :: _, [] => false
  | a :: as, b :: bs =>
    if a.val < b.val then true
    else if b.val < a.val then false
    else strLe as bs

/-- Stable insertion of `x` into a sorted list: `x` goes before the
first element `y` with `le x y` (so before later elements of equal
key, preserving original order). -/
def insertSorted (le : α → α → Bool) (x : α) : List α → List α
  | [] => [x]
  | y :: ys => if le x y then x :: y :: ys else y :: insertSorted le x ys

/-- Stable ascending sort by the comparator-induced order `le`,
modelling `Array.prototype.sort` (stable per ES2019; a stable sort
with respect to a total preorder is unique, so any stable
implementation is the same function). -/
def jsSort (le : α → α → Bool) : List α → List α
  | [] => []
  | x :: xs => insertSorted le x (jsSort le xs)

/-- The expiry comparator `ad - bd` of lines 118-122 and 137-141,
as the relation "sorts no later than". -/
def daysLe (a b : Item) : Bool :=
  daysKey a ≤ daysKey b

/-- The urgent-list predicate of line 136:
`status === 'expired' || (daysLeft !== null && daysLeft <= 30)`. -/
def urgentPred (i : Item) : Bool :=
  i._meta.status = Status.expired ||
    (match i._meta.daysLeft with
     | some d => d ≤ 30
     | none => false)

/-- The data content `renderAll` puts on the screen. -/
structure ViewModel where
  filtered : List Item
  total : Nat
  safe : Nat
  soon : Nat
  expired : Nat
  urgents : List Item
  noUrgentMsg : Bool
deriving DecidableEq, Repr

/-- Function `renderAll` of `app.js`: filter the copy of `items` when a
specific category is selected, sort it per the sort mode, compute the
four summary counts over the full `items`, build the sorted urgent
list over the full `items`, and take the "no urgent items" message
branch exactly when that list is empty. -/
def renderAll (items : List Item) (selectedFilter sortMode : Str) : ViewModel :=
  let filtered :=
    if selectedFilter ≠ [] ∧ selectedFilter ≠ "all".data then
      items.filter (fun i => getField i catKey = some selectedFilter)
    else items
  let sorted :=
    if sortMode = "category".data then
      jsSort (fun a b => strLe (getFieldD a catKey) (getFieldD b catKey)) filtered
    else if sortMode = "expiry".data then
      jsSort daysLe filtered
    else filtered
  let total := items.length
  let safe := (items.filter (fun i => i._meta.status = Status.safe)).length
  let soon := (items.filter (fun i => i._meta.status = Status.soon)).length
  let expired := (items.filter (fun i => i._meta.status = Status.expired)).length
  let urgents := jsSort daysLe (items.filter urgentPred)
  ⟨sorted, total, safe, soon, expired, urgents, urgents.length = 0⟩

/- ------------------------------------------------------------------
   Top-level control flow: `init` (lines 226-238) and the refresh
   button handler (lines 245-260).  The awaited fetch is modelled by
   an `Except Unit Str` argument (`.error` = rejected fetch, `.ok` =
   response text); the previously loaded collection is the `st`
   argument, and the result carries the new collection plus the
   rendered view, if any.
   ------------------------------------------------------------------ -/

/-- Lines 233-236 and 251: build `items` from the raw records; a
record without the expiry column passes `undefined` to
`computeExpiryInfo`, which (like `""`) takes the falsy branch, so the
`getD []` default is exact. -/
def classify (today : Int) (raw : List Rec) : List Item :=
  raw.map (fun r => ⟨r, computeExpiryInfo today ((r.lookup expiryKey).getD [])⟩)

/-- Function `init` of `app.js`.  There is no `try`/`catch`: a rejected
fetch propagates out of `init` (result `.error`).  On success, the
guard `if (!raw || raw.length === 0) return;` skips both the `items`
assignment and `renderAll` (result `(st, none)`). -/
def init (today : Int) (st : List Item) (fetchRes : Except Unit Str)
    (selectedFilter sortMode : Str) : Except Unit (List Item × Option ViewModel) :=
  match fetchRes with
  | .error e => .error e
  | .ok text =>
    let raw := fetchAndParseCSV text
    if raw.length = 0 then .ok (st, none)
    else
      let its := classify today raw
      .ok (its, some (renderAll its selectedFilter sortMode))

/-- The refresh-button click handler of `app.js`: the fetch is wrapped
in `try`/`catch`, a failure leaves `items` untouched, renders nothing
and shows the alert (the final `Bool`); on success `items` is replaced
unconditionally (no empty-guard here) and `renderAll` runs. -/
def refreshClick (today : Int) (st : List Item) (fetchRes : Except Unit Str)
    (selectedFilter sortMode : Str) : List Item × Option ViewModel × Bool :=
  match fetchRes with
  | .error _ => (st, none, true)
  | .ok text =>
    let its := classify today (fetchAndParseCSV text)
    (its, some (renderAll its selectedFilter sortMode), false)

/- ==================================================================
   Theorems
   ================================================================== -/

theorem ceilDiv_mul_cancel (x : Int) : ceilDiv (x * 86400000) 86400000 = x := by
  unfold ceilDiv
  rw [show -(x * 86400000) = (-x) * 86400000 by ring]
  rw [Int.mul_ediv_cancel _ (by norm_num)]
  ring

theorem splitOnChar_ne_nil (sep : Char) (s : Str) : splitOnChar sep s ≠ [] := by
  cases s with
  | nil => simp [splitOnChar]
  | cons c cs =>
    unfold splitOnChar
    split
    · simp
    · split <;> simp

theorem mem_dropWhile_of_not {α : Type _} {p : α → Bool} {l : List α} {a : α}
    (ha : a ∈ l) (hpa : p a = false) : a ∈ l.dropWhile p := by
  induction l with
  | nil => cases ha
  | cons x xs ih =>
    rw [List.dropWhile_cons]
    by_cases hx : p x = true
    · rw [if_pos hx]
      rcases List.mem_cons.mp ha with rfl | h
      · rw [hpa] at hx; cases hx
      · exact ih h
    · rw [if_neg hx]
      exact ha

theorem mem_jsTrim_of_not_ws {s : Str} {c : Char} (hc : c ∈ s) (hws : isWS c = false) :
    c ∈ jsTrim s := by
  unfold jsTrim
  rw [List.mem_reverse]
  apply mem_dropWhile_of_not _ hws
  rw [List.mem_reverse]
  exact mem_dropWhile_of_not hc hws

theorem mem_of_mem_splitOnChar {sep : Char} {s : Str} :
    ∀ {p : Str}, p ∈ splitOnChar sep s → ∀ {c : Char}, c ∈ p → c ∈ s ∧ c ≠ sep := by
  induction s with
  | nil =>
    intro p hp c hc
    simp [splitOnChar] at hp
    subst hp; cases hc
  | cons x xs ih =>
    intro p hp c hc
    rcases hsp : splitOnChar sep xs with _ | ⟨t, ts⟩
    · exact absurd hsp (splitOnChar_ne_nil sep xs)
    · have hcons : splitOnChar sep (x :: xs) =
          if x = sep then [] :: t :: ts else (x :: t) :: ts := by
        rw [splitOnChar, hsp]
      rw [hcons] at hp
      by_cases hx : x = sep
      · rw [if_pos hx] at hp
        rcases List.mem_cons.mp hp with rfl | h
        · cases hc
        · have := ih (hsp ▸ h) hc
          exact ⟨List.mem_cons_of_mem x this.1, this.2⟩
      · rw [if_neg hx] at hp
        rcases List.mem_cons.mp hp with rfl | h
        · rcases List.mem_cons.mp hc with rfl | hct
          · exact ⟨List.mem_cons_self _ _, hx⟩
          · have ht : t ∈ splitOnChar sep xs := hsp ▸ List.mem_cons_self t ts
            have := ih ht hct
            exact ⟨List.mem_cons_of_mem x this.1, this.2⟩
        · have hmem : p ∈ splitOnChar sep xs := hsp ▸ List.mem_cons_of_mem t h
          have := ih hmem hc
          exact ⟨List.mem_cons_of_mem x this.1, this.2⟩

theorem isDigit_not_isWS {c : Char} (h : c.isDigit = true) : isWS c = false := by
  by_contra hws
  rw [Bool.not_eq_false] at hws
  simp only [isWS, Bool.or_eq_true, decide_eq_true_eq] at hws
  rcases hws with ((((h1 | h1) | h1) | h1) | h1) | h1 <;> subst h1 <;>
    exact absurd h (by decide)

theorem stripSign_snd_subset (t : Str) : (stripSign t).2 ⊆ t := by
  cases t with
  | nil => simp [stripSign]
  | cons c r =>
    simp only [stripSign]
    split
    · exact fun x hx => List.mem_cons_of_mem _ hx
    · split
      · exact fun x hx => List.mem_cons_of_mem _ hx
      · exact fun x hx => hx

theorem exists_digit_of_jsParseInt_some {s : Str} {v : Int} (h : jsParseInt s = some v) :
    ∃ c ∈ s, c.isDigit = true := by
  simp only [jsParseInt] at h
  by_cases hnil : ((stripSign (s.dropWhile isWS)).2.takeWhile Char.isDigit) = []
  · rw [if_pos hnil] at h; cases h
  · obtain ⟨c, hc⟩ := List.exists_mem_of_ne_nil _ hnil
    refine ⟨c, ?_, List.mem_takeWhile_imp hc⟩
    have h1 : c ∈ (stripSign (s.dropWhile isWS)).2 := (List.takeWhile_sublist _).subset hc
    have h2 : c ∈ s.dropWhile isWS := stripSign_snd_subset _ h1
    exact (List.dropWhile_sublist _).subset h2

theorem parse_excludes_guard {s : Str} {a b c : Int}
    (h : (splitOnChar '-' s).map jsParseInt = [some a, some b, some c]) :
    ¬(s = [] ∨ jsTrim s = ['-']) := by
  rintro (rfl | hdash)
  · simp [splitOnChar, jsParseInt, stripSign] at h
  · rcases hsp : splitOnChar '-' s with _ | ⟨p1, rest⟩
    · exact splitOnChar_ne_nil _ _ hsp
    · rw [hsp] at h
      simp only [List.map_cons, List.cons.injEq] at h
      obtain ⟨d, hd_mem, hd_digit⟩ := exists_digit_of_jsParseInt_some h.1
      have hp1 : p1 ∈ splitOnChar '-' s := hsp ▸ List.mem_cons_self _ _
      obtain ⟨hds, hdne⟩ := mem_of_mem_splitOnChar hp1 hd_mem
      have hmem : d ∈ jsTrim s := mem_jsTrim_of_not_ws hds (isDigit_not_isWS hd_digit)
      rw [hdash] at hmem
      simp at hmem
      exact hdne hmem

theorem computeExpiryInfo_parsed (today : Int) {s : Str} {a b c : Int}
    (h : (splitOnChar '-' s).map jsParseInt = [some a, some b, some c]) :
    computeExpiryInfo today s =
      ⟨some (daysFromCivil a b c - today), statusOfDays (daysFromCivil a b c - today)⟩ := by
  simp only [computeExpiryInfo, h]
  rw [if_neg (parse_excludes_guard h)]
  rw [if_neg (by simp)]
  simp [ceilDiv_mul_cancel]

theorem computeExpiryInfo_noexpiry (today : Int) {s : Str}
    (h : s = [] ∨ jsTrim s = ['-'] ∨ (splitOnChar '-' s).length ≠ 3 ∨
      ∃ p ∈ splitOnChar '-' s, jsParseInt p = none) :
    computeExpiryInfo today s = ⟨none, .noexpiry⟩ := by
  simp only [computeExpiryInfo]
  by_cases h1 : s = [] ∨ jsTrim s = ['-']
  · rw [if_pos h1]
  · rw [if_neg h1]
    rcases h with h | h | h | h
    · exact absurd (Or.inl h) h1
    · exact absurd (Or.inr h) h1
    · rw [if_pos (Or.inl (by rwa [List.length_map]))]
    · refine if_pos (Or.inr ?_)
      obtain ⟨p, hp, hnone⟩ := h
      rw [List.any_eq_true]
      exact ⟨none, List.mem_map.mpr ⟨p, hp, hnone⟩, rfl⟩

theorem computeExpiryInfo_coherent (today : Int) (s : Str) :
    Coherent (computeExpiryInfo today s) := by
  simp only [computeExpiryInfo]
  split
  · simp [Coherent, expectedStatus]
  · split
    · simp [Coherent, expectedStatus]
    · split <;> simp [Coherent, expectedStatus]

/-- C1: for every expiry string that parses as a valid 3-component date,
`computeExpiryInfo` returns the calendar-day difference as `daysLeft` and
assigns the status by the threshold chain `daysLeft ≤ 30 ⇒ expired`
(covering zero and negative), else `≤ 89 ⇒ soon`, else `safe`; in
particular `daysLeft = 0` and `30` give `expired`, `31` and `89` give
`soon`, and `90` gives `safe`. -/
theorem expiry_status_thresholds (today : Int) (s : Str) (a b c : Int)
    (h : (splitOnChar '-' s).map jsParseInt = [some a, some b, some c]) :
    (computeExpiryInfo today s).daysLeft = some (daysFromCivil a b c - today) ∧
    (computeExpiryInfo today s).status = statusOfDays (daysFromCivil a b c - today) ∧
    (∀ d : Int, statusOfDays d =
      if d ≤ 30 then Status.expired else if d ≤ 89 then Status.soon else Status.safe) ∧
    (daysFromCivil a b c - today = 0 → computeExpiryInfo today s = ⟨some 0, .expired⟩) ∧
    (daysFromCivil a b c - today = 30 → computeExpiryInfo today s = ⟨some 30, .expired⟩) ∧
    (daysFromCivil a b c - today = 31 → computeExpiryInfo today s = ⟨some 31, .soon⟩) ∧
    (daysFromCivil a b c - today = 89 → computeExpiryInfo today s = ⟨some 89, .soon⟩) ∧
    (daysFromCivil a b c - today = 90 → computeExpiryInfo today s = ⟨some 90, .safe⟩) := by
  have hmain := computeExpiryInfo_parsed today h
  refine ⟨by rw [hmain], by rw [hmain], fun d => rfl, ?_, ?_, ?_, ?_, ?_⟩ <;>
    intro hD <;> rw [hmain, hD] <;> decide

/-- Witness for C1 at a concrete boundary: seen from 2026-01-01, the
date 2026-01-31 is 30 days ahead and is classified `expired`. -/
theorem expiry_status_thresholds_witness :
    computeExpiryInfo (daysFromCivil 2026 1 1) ("2026-01-31".data) =
      ⟨some 30, .expired⟩ :=
  (expiry_status_thresholds (daysFromCivil 2026 1 1) ("2026-01-31".data) 2026 1 31
    (by decide)).2.2.2.2.1 (by decide)

/-- C2: every input that is empty, trims to `'-'`, does not split on
`'-'` into exactly 3 components, or has a component `parseInt` rejects,
yields `{daysLeft: null, status: noexpiry}`; and for every input string
whatsoever the function returns a well-formed result (it is total, so
it never throws), with `'not-a-date'`, `'2024-13'` and `' '` as the
spec's concrete instances. -/
theorem malformed_expiry_noexpiry (today : Int) (s : Str) :
    ((s = [] ∨ jsTrim s = ['-'] ∨ (splitOnChar '-' s).length ≠ 3 ∨
        ∃ p ∈ splitOnChar '-' s, jsParseInt p = none) →
      computeExpiryInfo today s = ⟨none, .noexpiry⟩) ∧
    (computeExpiryInfo today s = ⟨none, .noexpiry⟩ ∨
      ∃ d : Int, computeExpiryInfo today s = ⟨some d, statusOfDays d⟩) ∧
    computeExpiryInfo today ("not-a-date".data) = ⟨none, .noexpiry⟩ ∧
    computeExpiryInfo today ("2024-13".data) = ⟨none, .noexpiry⟩ ∧
    computeExpiryInfo today (" ".data) = ⟨none, .noexpiry⟩ := by
  refine ⟨computeExpiryInfo_noexpiry today, ?_, ?_, ?_, ?_⟩
  · have hc := computeExpiryInfo_coherent today s
    unfold Coherent at hc
    rcases hE : computeExpiryInfo today s with ⟨dl, st⟩
    rw [hE] at hc
    cases dl with
    | none =>
      left
      simp only [expectedStatus] at hc
      rw [hc]
    | some d =>
      right
      simp only [expectedStatus] at hc
      exact ⟨d, by rw [hc]⟩
  · exact computeExpiryInfo_noexpiry today
      (Or.inr (Or.inr (Or.inr ⟨"not".data, by decide, by decide⟩)))
  · exact computeExpiryInfo_noexpiry today (Or.inr (Or.inr (Or.inl (by decide))))
  · exact computeExpiryInfo_noexpiry today (Or.inr (Or.inr (Or.inl (by decide))))

/-- Witness for C2: a single space yields the no-expiry result. -/
theorem malformed_expiry_noexpiry_witness :
    computeExpiryInfo 0 (" ".data) = ⟨none, .noexpiry⟩ :=
  (malformed_expiry_noexpiry 0 (" ".data)).1 (by decide)

/-- C10: every string splitting on `'-'` into exactly 3 components that
`parseInt` accepts is classified as a dated value (never `noexpiry`),
with `daysLeft` computed through the `Date` constructor's calendar
rollover: month 13 of year `y` is January of `y + 1` (months are linear
modulo year carries) and days roll over linearly; `parseInt` accepts
trailing garbage such as `'2024x'`. -/
theorem garbage_and_rollover_dates_accepted (today : Int) (s : Str) (a b c : Int)
    (h : (splitOnChar '-' s).map jsParseInt = [some a, some b, some c]) :
    computeExpiryInfo today s =
      ⟨some (daysFromCivil a b c - today), statusOfDays (daysFromCivil a b c - today)⟩ ∧
    (computeExpiryInfo today s).status ≠ Status.noexpiry ∧
    (∀ d : Int, statusOfDays d ≠ Status.noexpiry) ∧
    (∀ y m d : Int, daysFromCivil y (m + 12) d = daysFromCivil (y + 1) m d) ∧
    (∀ y m d : Int, daysFromCivil y m (d + 1) = daysFromCivil y m d + 1) ∧
    jsParseInt ("2024x".data) = some 2024 ∧
    daysFromCivil 2024 13 1 = daysFromCivil 2025 1 1 := by
  have hmain := computeExpiryInfo_parsed today h
  have hstat : ∀ d : Int, statusOfDays d ≠ Status.noexpiry := by
    intro d
    unfold statusOfDays
    split
    · simp
    · split <;> simp
  have hmonth : ∀ y m d : Int, daysFromCivil y (m + 12) d = daysFromCivil (y + 1) m d := by
    intro y m d
    have h1 : (m + 12 - 1) / 12 = (m - 1) / 12 + 1 := by omega
    have h2 : (m + 12 - 1) % 12 = (m - 1) % 12 := by omega
    simp only [daysFromCivil, h1, h2]
    ring_nf
  refine ⟨hmain, ?_, hstat, hmonth, ?_, by decide, by decide⟩
  · rw [hmain]
    exact hstat _
  · intro y m d
    simp only [daysFromCivil]
    ring

/-- Witness for C10: `'2024-13-40'` (month 13, day 40) is accepted and
rolls over to 2025-02-09, i.e. day 20128 of the epoch calendar. -/
theorem garbage_and_rollover_witness :
    computeExpiryInfo 0 ("2024-13-40".data) = ⟨some 20128, Status.safe⟩ := by
  have h := (garbage_and_rollover_dates_accepted 0 ("2024-13-40".data) 2024 13 40
    (by decide)).1
  rw [h]; decide

theorem parseLineAux_keys (cols : List Str) (hs : List Str) (i : Nat) :
    (parseLineAux cols hs i).map Prod.fst = hs := by
  induction hs generalizing i with
  | nil => rfl
  | cons h t ih => simp [parseLineAux, ih]

theorem parseLineAux_getElem? (cols : List Str) (hs : List Str) (i j : Nat) :
    (parseLineAux cols hs i)[j]? =
      (hs[j]?).map (fun h => (h, cols.getD (i + j) [])) := by
  induction hs generalizing i j with
  | nil => simp [parseLineAux]
  | cons h t ih =>
    cases j with
    | zero => simp [parseLineAux]
    | succ j' =>
      simp only [parseLineAux, List.getElem?_cons_succ, ih]
      rw [show i + 1 + j' = i + (j' + 1) by omega]

theorem parseLineAux_congr (cols1 cols2 : List Str) (hs : List Str) :
    ∀ i, (∀ j, i ≤ j → j < i + hs.length → cols1.getD j [] = cols2.getD j []) →
      parseLineAux cols1 hs i = parseLineAux cols2 hs i := by
  induction hs with
  | nil => intro i _; rfl
  | cons hd t ih =>
    intro i h
    simp only [parseLineAux]
    rw [h i le_rfl (by simp), ih (i + 1) (fun j hj1 hj2 => h j (by omega) (by simp at hj2 ⊢; omega))]

/-- C3: for raw text whose (trimmed) line split is a header followed by
K data lines, the parser yields exactly K records in line order; each
record's key list is exactly the header's trimmed token list; a data
line with fewer tokens than headers gets `""` for each missing trailing
field; and a record never depends on tokens beyond the header count
(two lines agreeing on their first `headers.length` tokens parse
identically). -/
theorem parser_shape (text : Str) (hd : Str) (ds : List Str)
    (h : splitLines text = hd :: ds) (hne : ds ≠ []) :
    (fetchAndParseCSV text).length = ds.length ∧
    fetchAndParseCSV text = ds.map (parseLine (splitTrim hd)) ∧
    (∀ r ∈ fetchAndParseCSV text, r.map Prod.fst = splitTrim hd) ∧
    (∀ line : Str, ∀ j : Nat,
      (splitTrim line).length ≤ j → j < (splitTrim hd).length →
      (parseLine (splitTrim hd) line)[j]? = some ((splitTrim hd).getD j [], [])) ∧
    (∀ l1 l2 : Str,
      (splitTrim l1).take (splitTrim hd).length =
        (splitTrim l2).take (splitTrim hd).length →
      parseLine (splitTrim hd) l1 = parseLine (splitTrim hd) l2) := by
  have hparse : fetchAndParseCSV text = ds.map (parseLine (splitTrim hd)) := by
    simp only [fetchAndParseCSV, h]
    rw [if_neg hne]
  refine ⟨by rw [hparse, List.length_map], hparse, ?_, ?_, ?_⟩
  · intro r hr
    rw [hparse] at hr
    obtain ⟨line, _, rfl⟩ := List.mem_map.mp hr
    exact parseLineAux_keys _ _ _
  · intro line j hlen hj
    unfold parseLine
    rw [parseLineAux_getElem?]
    have hhd : (splitTrim hd)[j]? = some ((splitTrim hd).getD j []) := by
      rw [List.getD_eq_getElem?_getD]
      cases hx : (splitTrim hd)[j]? with
      | none => exact absurd (List.getElem?_eq_none_iff.mp hx) (by omega)
      | some v => rfl
    rw [hhd, Option.map_some']
    have hcols : (splitTrim line).getD (0 + j) [] = [] :=
      List.getD_eq_default _ _ (by simpa using hlen)
    rw [hcols]
  · intro l1 l2 htake
    unfold parseLine
    apply parseLineAux_congr
    intro j _ hj
    rw [List.getD_eq_getElem?_getD, List.getD_eq_getElem?_getD]
    have h1 : ((splitTrim l1).take (splitTrim hd).length)[j]? =
        ((splitTrim l2).take (splitTrim hd).length)[j]? := by rw [htake]
    rw [List.getElem?_take, List.getElem?_take, if_pos (by omega), if_pos (by omega)] at h1
    rw [h1]

/-- Witness for C3: a header of three fields, a short row (padded with
`""`) and a long row (fourth token dropped). -/
theorem parser_shape_witness :
    fetchAndParseCSV ("a,b,c\n1,2\nx,y,z,w".data) =
      [[("a".data, "1".data), ("b".data, "2".data), ("c".data, [])],
       [("a".data, "x".data), ("b".data, "y".data), ("c".data, "z".data)]] := by
  have h := (parser_shape ("a,b,c\n1,2\nx,y,z,w".data) ("a,b,c".data)
    ["1,2".data, "x,y,z,w".data] (by decide) (by decide)).2.1
  rw [h]; decide

theorem mem_insertSorted {α : Type _} (le : α → α → Bool) (x : α) (l : List α) (a : α) :
    a ∈ insertSorted le x l ↔ a = x ∨ a ∈ l := by
  induction l with
  | nil => simp [insertSorted]
  | cons y ys ih =>
    simp only [insertSorted]
    split
    · simp [List.mem_cons]
    · simp only [List.mem_cons, ih]
      tauto

theorem mem_jsSort {α : Type _} (le : α → α → Bool) (l : List α) (a : α) :
    a ∈ jsSort le l ↔ a ∈ l := by
  induction l with
  | nil => simp [jsSort]
  | cons x xs ih =>
    simp only [jsSort, mem_insertSorted, List.mem_cons, ih]

theorem length_insertSorted {α : Type _} (le : α → α → Bool) (x : α) (l : List α) :
    (insertSorted le x l).length = l.length + 1 := by
  induction l with
  | nil => rfl
  | cons y ys ih =>
    simp only [insertSorted]
    split
    · rfl
    · simp [ih]

theorem length_jsSort {α : Type _} (le : α → α → Bool) (l : List α) :
    (jsSort le l).length = l.length := by
  induction l with
  | nil => rfl
  | cons x xs ih => simp [jsSort, length_insertSorted, ih]

theorem jsSort_eq_nil_iff {α : Type _} (le : α → α → Bool) (l : List α) :
    jsSort le l = [] ↔ l = [] := by
  constructor
  · intro h
    have := length_jsSort le l
    rw [h] at this
    exact List.length_eq_zero.mp this.symm
  · rintro rfl; rfl

theorem pairwise_insertSorted {α : Type _} (le : α → α → Bool)
    (htot : ∀ a b, le a b = true ∨ le b a = true)
    (htrans : ∀ a b c, le a b = true → le b c = true → le a c = true)
    (x : α) (l : List α) (hl : l.Pairwise (fun a b => le a b = true)) :
    (insertSorted le x l).Pairwise (fun a b => le a b = true) := by
  induction l with
  | nil => simp [insertSorted]
  | cons y ys ih =>
    rcases List.pairwise_cons.mp hl with ⟨hy, hys⟩
    simp only [insertSorted]
    split
    · rename_i hxy
      rw [List.pairwise_cons]
      refine ⟨?_, hl⟩
      intro z hz
      rcases List.mem_cons.mp hz with rfl | hz'
      · exact hxy
      · exact htrans x y z hxy (hy z hz')
    · rename_i hxy
      have hyx : le y x = true := by
        rcases htot x y with h | h
        · exact absurd h hxy
        · exact h
      rw [List.pairwise_cons]
      refine ⟨?_, ih hys⟩
      intro z hz
      rcases (mem_insertSorted le x ys z).mp hz with rfl | hz'
      · exact hyx
      · exact hy z hz'

theorem pairwise_jsSort {α : Type _} (le : α → α → Bool)
    (htot : ∀ a b, le a b = true ∨ le b a = true)
    (htrans : ∀ a b c, le a b = true → le b c = true → le a c = true)
    (l : List α) : (jsSort le l).Pairwise (fun a b => le a b = true) := by
  induction l with
  | nil => simp [jsSort]
  | cons x xs ih => exact pairwise_insertSorted le htot htrans x (jsSort le xs) ih

theorem daysLe_total (a b : Item) : daysLe a b = true ∨ daysLe b a = true := by
  unfold daysLe
  rcases le_total (daysKey a) (daysKey b) with h | h
  · left; simpa using h
  · right; simpa using h

theorem daysLe_trans (a b c : Item) (h1 : daysLe a b = true) (h2 : daysLe b c = true) :
    daysLe a c = true := by
  unfold daysLe at *
  simp only [decide_eq_true_eq] at *
  omega

/-- C4: the four summary counts are computed over the full unfiltered
`items` regardless of the filter selector, and a selector matching no
item yields an empty filtered sequence (while the counts, being over
`items`, equal the unfiltered view's counts). -/
theorem summary_counts_unfiltered (items : List Item) (f s : Str) :
    ((renderAll items f s).total = items.length ∧
     (renderAll items f s).safe =
       (items.filter (fun i => i._meta.status = Status.safe)).length ∧
     (renderAll items f s).soon =
       (items.filter (fun i => i._meta.status = Status.soon)).length ∧
     (renderAll items f s).expired =
       (items.filter (fun i => i._meta.status = Status.expired)).length) ∧
    (∀ g : Str,
      (renderAll items f s).total = (renderAll items g s).total ∧
      (renderAll items f s).safe = (renderAll items g s).safe ∧
      (renderAll items f s).soon = (renderAll items g s).soon ∧
      (renderAll items f s).expired = (renderAll items g s).expired) ∧
    ((f ≠ [] ∧ f ≠ ("all").data ∧ ∀ i ∈ items, getField i catKey ≠ some f) →
      (renderAll items f s).filtered = []) := by
  refine ⟨⟨rfl, rfl, rfl, rfl⟩, fun g => ⟨rfl, rfl, rfl, rfl⟩, ?_⟩
  rintro ⟨h1, h2, h3⟩
  have hfil : (if f ≠ [] ∧ f ≠ ("all").data then
      items.filter (fun i => getField i catKey = some f) else items) = [] := by
    rw [if_pos ⟨h1, h2⟩, List.filter_eq_nil_iff]
    intro i hi
    simp only [decide_eq_true_eq]
    exact h3 i hi
  simp only [renderAll, hfil]
  split
  · rfl
  · split <;> rfl

/-- Witness for C4: one food item, filtering by the unmatched category
`'藥品'` leaves the filtered sequence empty. -/
theorem summary_counts_unfiltered_witness :
    (renderAll [⟨[(catKey, "食物".data)], ⟨none, Status.noexpiry⟩⟩]
      ("藥品").data []).filtered = [] :=
  (summary_counts_unfiltered [⟨[(catKey, "食物".data)], ⟨none, Status.noexpiry⟩⟩]
    ("藥品").data []).2.2 ⟨by decide, by decide, by decide⟩

theorem urgentPred_eq_expired {i : Item} (hc : Coherent i._meta) :
    urgentPred i = decide (i._meta.status = Status.expired) := by
  unfold Coherent at hc
  rcases hdl : i._meta.daysLeft with _ | d
  · rw [hdl] at hc
    simp only [expectedStatus] at hc
    simp [urgentPred, hc, hdl]
  · rw [hdl] at hc
    simp only [expectedStatus] at hc
    by_cases h30 : d ≤ 30
    · have hs : statusOfDays d = .expired := by unfold statusOfDays; rw [if_pos h30]
      simp [urgentPred, hc, hdl, hs, h30]
    · have hs : statusOfDays d ≠ .expired := by
        unfold statusOfDays
        rw [if_neg h30]
        split <;> simp
      simp [urgentPred, hc, hdl, hs, h30]

/-- C5: on coherently classified items (and `computeExpiryInfo` always
classifies coherently, first conjunct), the urgent subset — status
`expired` or non-null `daysLeft ≤ 30` — is exactly the expired-status
subset: same filter, membership iff expired, and empty iff no item has
status `expired`. -/
theorem urgent_equals_expired (items : List Item) (f s : Str)
    (h : ∀ i ∈ items, Coherent i._meta) :
    (∀ today : Int, ∀ str : Str, Coherent (computeExpiryInfo today str)) ∧
    items.filter urgentPred =
      items.filter (fun i => i._meta.status = Status.expired) ∧
    (∀ i, i ∈ (renderAll items f s).urgents ↔
      i ∈ items ∧ i._meta.status = Status.expired) ∧
    (∀ i ∈ (renderAll items f s).urgents, i._meta.status = Status.expired) ∧
    ((renderAll items f s).urgents = [] ↔
      ∀ i ∈ items, i._meta.status ≠ Status.expired) := by
  have hfeq : items.filter urgentPred =
      items.filter (fun i => i._meta.status = Status.expired) :=
    List.filter_congr (fun i hi => urgentPred_eq_expired (h i hi))
  have hurg : (renderAll items f s).urgents = jsSort daysLe (items.filter urgentPred) := rfl
  have hmem : ∀ i, i ∈ (renderAll items f s).urgents ↔
      i ∈ items ∧ i._meta.status = Status.expired := by
    intro i
    rw [hurg, mem_jsSort, hfeq, List.mem_filter]
    simp
  refine ⟨fun today str => computeExpiryInfo_coherent today str, hfeq, hmem, ?_, ?_⟩
  · intro i hi
    exact ((hmem i).mp hi).2
  · rw [hurg, jsSort_eq_nil_iff, hfeq, List.filter_eq_nil_iff]
    simp

/-- Witness for C5: a single already-expired item (20 days past) makes
every urgent entry expired-status. -/
theorem urgent_equals_expired_witness :
    [(⟨[], ⟨some (-20), Status.expired⟩⟩ : Item)].filter urgentPred =
      [(⟨[], ⟨some (-20), Status.expired⟩⟩ : Item)].filter
        (fun i => i._meta.status = Status.expired) :=
  (urgent_equals_expired [⟨[], ⟨some (-20), Status.expired⟩⟩] [] []
    (by decide)).2.1

theorem count_partition (items : List Item) :
    (items.filter (fun i => i._meta.status = Status.safe)).length +
      (items.filter (fun i => i._meta.status = Status.soon)).length +
      (items.filter (fun i => i._meta.status = Status.expired)).length +
      (items.filter (fun i => i._meta.status = Status.noexpiry)).length =
    items.length := by
  induction items with
  | nil => rfl
  | cons i t ih =>
    simp only [List.filter_cons, List.length_cons]
    cases hstat : i._meta.status <;> simp [hstat] <;> omega

/-- C9: the four status counts partition any item sequence:
safe + soon + expired + noexpiry = total (every item's status is
exactly one of the four enum values). -/
theorem status_counts_partition (items : List Item) (f s : Str) :
    (renderAll items f s).safe + (renderAll items f s).soon +
      (renderAll items f s).expired +
      (items.filter (fun i => i._meta.status = Status.noexpiry)).length =
    (renderAll items f s).total :=
  count_partition items

/-- C6 (amended): with sort mode `expiry` the view is sorted ascending
by `daysLeft` with `null` mapped to the sentinel 99999; provided every
dated item has `daysLeft < 99999`, every no-expiry item appears after
every dated item.  (The unamended claim — "regardless of the dated
items' daysLeft values" — fails when a dated item reaches the sentinel,
see the counterexample.) -/
theorem expiry_sort_nulls_last (items : List Item) (f : Str)
    (hsmall : ∀ i ∈ items, ∀ d : Int, i._meta.daysLeft = some d → d < 99999) :
    ((renderAll items f ("expiry").data).filtered).Pairwise
      (fun a b => a._meta.daysLeft = none → b._meta.daysLeft = none) := by
  have key : ∀ l : List Item,
      (∀ i ∈ l, ∀ d : Int, i._meta.daysLeft = some d → d < 99999) →
      (jsSort daysLe l).Pairwise
        (fun a b => a._meta.daysLeft = none → b._meta.daysLeft = none) := by
    intro l hl
    refine (pairwise_jsSort daysLe daysLe_total daysLe_trans l).imp_of_mem ?_
    intro a b _ hb hab hnone
    have hb' : b ∈ l := (mem_jsSort daysLe l b).mp hb
    rcases hbd : b._meta.daysLeft with _ | d
    · rfl
    · exfalso
      have hd := hl b hb' d hbd
      have hle : daysKey a ≤ daysKey b := by simpa [daysLe] using hab
      rw [show daysKey a = 99999 from by simp [daysKey, hnone],
        show daysKey b = d from by simp [daysKey, hbd]] at hle
      omega
  have hfil : (renderAll items f ("expiry").data).filtered =
      jsSort daysLe (if f ≠ [] ∧ f ≠ ("all").data then
        items.filter (fun i => getField i catKey = some f) else items) := by
    simp [renderAll]
  rw [hfil]
  apply key
  intro i hi
  apply hsmall
  split at hi
  · exact (List.mem_filter.mp hi).1
  · exact hi

/-- Witness for C6 (amended): one dated item (5 days) and one no-expiry
item; the no-expiry item sorts last. -/
theorem expiry_sort_nulls_last_witness :
    ((renderAll [⟨[], ⟨some 5, Status.expired⟩⟩, ⟨[], ⟨none, Status.noexpiry⟩⟩]
        [] ("expiry").data).filtered).Pairwise
      (fun a b => a._meta.daysLeft = none → b._meta.daysLeft = none) :=
  expiry_sort_nulls_last
    [⟨[], ⟨some 5, Status.expired⟩⟩, ⟨[], ⟨none, Status.noexpiry⟩⟩] []
    (by
      intro i hi d hd
      rcases List.mem_cons.mp hi with rfl | hi2
      · simp at hd
        omega
      · rcases List.mem_cons.mp hi2 with rfl | hi3
        · simp at hd
        · cases hi3)

/-- C6 counterexample: a dated item with `daysLeft = 100000` (at least
the null sentinel 99999) sorts after the no-expiry item, so after the
expiry sort a no-expiry item precedes a dated one, refuting the claim
for arbitrary `daysLeft` values. -/
theorem expiry_sort_nulls_last_cex :
    ¬ (((renderAll
          [⟨[], ⟨some 100000, Status.safe⟩⟩, ⟨[], ⟨none, Status.noexpiry⟩⟩]
          [] ("expiry").data).filtered).Pairwise
        (fun a b => a._meta.daysLeft = none → b._meta.daysLeft = none)) := by
  intro hp
  have hfil : (renderAll
      [⟨[], ⟨some 100000, Status.safe⟩⟩, ⟨[], ⟨none, Status.noexpiry⟩⟩]
      [] ("expiry").data).filtered =
      [⟨[], ⟨none, Status.noexpiry⟩⟩, ⟨[], ⟨some 100000, Status.safe⟩⟩] := by
    decide
  rw [hfil] at hp
  have h1 := (List.pairwise_cons.mp hp).1 _ (List.mem_cons_self _ _) rfl
  exact Option.noConfusion h1

/-- C7 (amended): a refresh-fetch failure is caught by the handler's
`try`/`catch`: the previously loaded `items` stay unchanged, nothing is
re-rendered, and the alert is shown; but a failure of the initial
page-load fetch is NOT caught — `init` has no `try`/`catch`, so the
rejection propagates as an unhandled fault (`items` is still untouched,
since the assignment sits after the `await`). -/
theorem fetch_failure_behaviour (today : Int) (st : List Item) (f s : Str) :
    refreshClick today st (Except.error ()) f s = (st, none, true) ∧
    init today st (Except.error ()) f s = Except.error () :=
  ⟨rfl, rfl⟩

/-- C7 counterexample: on the initial page load a failed fetch is not
converted to a user notification — it escapes `init` as an unhandled
rejection. -/
theorem fetch_failure_uncaught_cex :
    init 0 [] (Except.error ()) [] [] = Except.error () := rfl

/-- C8 (amended): zero parsed data rows is a valid terminal state on a
refresh: `items` becomes empty and the dashboard renders zero counts,
an empty urgent list and the "no urgent items" message; but on the
initial load `init` early-returns without rendering (last conjunct). -/
theorem empty_dataset_renders (today : Int) (st : List Item) (text f s : Str)
    (h : fetchAndParseCSV text = []) :
    refreshClick today st (Except.ok text) f s = ([], some (renderAll [] f s), false) ∧
    (renderAll [] f s).total = 0 ∧ (renderAll [] f s).safe = 0 ∧
    (renderAll [] f s).soon = 0 ∧ (renderAll [] f s).expired = 0 ∧
    (renderAll [] f s).urgents = [] ∧ (renderAll [] f s).noUrgentMsg = true ∧
    init today st (Except.ok text) f s = Except.ok (st, none) := by
  refine ⟨?_, rfl, rfl, rfl, rfl, rfl, rfl, ?_⟩
  · simp [refreshClick, h, classify]
  · simp [init, h]

/-- Witness for C8 (amended): the empty response text parses to zero
rows and the refresh path still renders. -/
theorem empty_dataset_renders_witness :
    refreshClick 0 [] (Except.ok []) [] [] = ([], some (renderAll [] [] []), false) :=
  (empty_dataset_renders 0 [] [] [] [] (by decide)).1

/-- C8 counterexample: with an empty response on the initial load,
`init` early-returns with no rendered view (`none`), so the dashboard
does not show the zero counts on initial load. -/
theorem empty_dataset_init_cex :
    init 0 [] (Except.ok []) [] [] = Except.ok ([], none) := rfl

example : computeExpiryInfo 20000 ("2024-11-02".data) =
    ⟨some (daysFromCivil 2024 11 2 - 20000), statusOfDays (daysFromCivil 2024 11 2 - 20000)⟩ := by
  decide

example : computeExpiryInfo 3 (" - ".data) = ⟨none, .noexpiry⟩ := by decide
example : computeExpiryInfo 3 ("not-a-date".data) = ⟨none, .noexpiry⟩ := by decide
example : daysFromCivil 2024 13 5 = daysFromCivil 2025 1 5 := by decide
example : daysFromCivil 1970 1 1 = 0 := by decide
example : daysFromCivil 1970 3 1 = 59 := by decide
example : daysFromCivil 2000 3 1 = 11017 := by decide
